import Mathlib

/-!
# garden-bait: the cart script (`src/script.js`)

A shallow embedding of the browser-side cart script and the properties its
specification states about it.

* JavaScript numbers are IEEE-754 doubles.  A finite double is represented by
  the rational number it denotes; arithmetic computes the exact rational result
  and rounds it to the nearest double (ties to even, overflow to infinity).
  The two zeros are identified, as `===` identifies them; no operation of the
  script (`+`, `*`, `toFixed`, `JSON.stringify`) tells them apart.
* The text kept in `localStorage` is only ever read through `JSON.parse`, so a
  stored text is represented by what `JSON.parse` makes of it.
* The five DOM elements the script looks up are optional fields of the page
  state; markup and text are kept as the sequence of fragments the template
  literals concatenate.
* The values the model covers are those of the persisted layout of the
  specification (arrays of line items whose fields are strings and numbers,
  with `null` where `JSON.stringify` writes a non-finite number) together
  with the non-array values `JSON.parse` can return.
-/

set_option maxRecDepth 100000

namespace GardenBait

/-! ## Numbers -/

/-- A JavaScript number: `NaN`, an infinity with its sign, or a finite double
given by its value. -/
inductive JSNum where
  | nan
  | inf (neg : Bool)
  | fin (q : ℚ)
deriving DecidableEq

/-- Binary logarithm by repeated halving; the first argument bounds the number
of halvings. -/
def log2Fuel : ℕ → ℕ → ℕ
  | 0, _ => 0
  | fuel + 1, n => if n < 2 then 0 else log2Fuel fuel (n / 2) + 1

/-- The position of the leading bit of `n` (`0` for `n = 0`). -/
def natLog2 (n : ℕ) : ℕ := log2Fuel n n

/-- For a positive rational `a`, the integer `k` with `2 ^ k ≤ a < 2 ^ (k + 1)`. -/
def floorLog2 (a : ℚ) : ℤ :=
  let k : ℤ := (natLog2 a.num.natAbs : ℤ) - (natLog2 a.den : ℤ)
  if (2 : ℚ) ^ k ≤ a then k else k - 1

/-- The integer nearest to a non-negative rational, a tie going to the even
neighbour. -/
def roundHalfEven (x : ℚ) : ℕ :=
  let f := ⌊x⌋₊
  let r := x - f
  if r < 1 / 2 then f
  else if 1 / 2 < r then f + 1
  else if f % 2 = 0 then f else f + 1

/-- The double nearest to the rational `q`: 53 significant bits, least exponent
`-1074`, ties to even, and an infinity when the rounded magnitude reaches
`2 ^ 1024`. -/
def roundDouble (q : ℚ) : JSNum :=
  if q = 0 then .fin 0
  else
    let a := |q|
    let e : ℤ := max (floorLog2 a - 52) (-1074)
    let r : ℚ := (roundHalfEven (a / (2 : ℚ) ^ e) : ℚ) * (2 : ℚ) ^ e
    if (2 : ℚ) ^ (1024 : ℤ) ≤ r then .inf (decide (q < 0))
    else .fin (if q < 0 then -r else r)

/-- The product `x * y` of two numbers. -/
def jsMul : JSNum → JSNum → JSNum
  | .fin a, .fin b => roundDouble (a * b)
  | .fin a, .inf n => if a = 0 then .nan else .inf (n != decide (a < 0))
  | .inf n, .fin b => if b = 0 then .nan else .inf (n != decide (b < 0))
  | .inf n, .inf m => .inf (n != m)
  | _, _ => .nan

/-- The sum `x + y` of two numbers. -/
def jsAdd : JSNum → JSNum → JSNum
  | .fin a, .fin b => roundDouble (a + b)
  | .fin _, .inf n => .inf n
  | .inf n, .fin _ => .inf n
  | .inf n, .inf m => if n = m then .inf n else .nan
  | _, _ => .nan

/-! ## Text -/

/-- A fragment of text: literal characters, or the string form of a finite
number (`Number::toString`), which is not expanded into digits. -/
inductive Piece where
  | lit (s : String)
  | number (q : ℚ)
deriving DecidableEq

/-- Text as the sequence of fragments that were concatenated. -/
abbrev Text := List Piece

/-- The string form of a number, as a template literal or `textContent`
produces it. -/
def numberText : JSNum → Piece
  | .nan => .lit "NaN"
  | .inf false => .lit "Infinity"
  | .inf true => .lit "-Infinity"
  | .fin q => .number q

/-- The last two decimal digits of `n`. -/
def pad2 (n : ℕ) : String :=
  String.mk [Nat.digitChar (n / 10 % 10), Nat.digitChar (n % 10)]

/-- The integer `n` for which `n / 100` is nearest to the non-negative `x`,
the larger one on a tie. -/
def centsOf (x : ℚ) : ℕ := ⌊x * 100 + 1 / 2⌋₊

/-- The digits `toFixed(2)` writes for a finite number of magnitude below
`10 ^ 21`. -/
def fixedDigits (q : ℚ) : String :=
  let n := centsOf |q|
  (if q < 0 then "-" else "") ++ toString (n / 100) ++ "." ++ pad2 n

/-- The result of `x.toFixed(2)`. -/
def toFixed2 : JSNum → Piece
  | .fin q => if (10 : ℚ) ^ 21 ≤ |q| then .number q else .lit (fixedDigits q)
  | x => numberText x

/-! ## parseFloat -/

/-- An argument passed for `price` or `cost`: a number or a string. -/
inductive Arg where
  | num (x : JSNum)
  | str (s : String)
deriving DecidableEq

/-- The characters `parseFloat` skips at the start of its input. -/
def isStrWhiteSpaceChar (c : Char) : Bool :=
  c.val.toNat ∈ [0x9, 0xA, 0xB, 0xC, 0xD, 0x20, 0xA0, 0x1680, 0x2028, 0x2029,
    0x202F, 0x205F, 0x3000, 0xFEFF] || (0x2000 ≤ c.val.toNat && c.val.toNat ≤ 0x200A)

/-- The value of a sequence of decimal digits. -/
def digitsValue (ds : List Char) : ℕ :=
  ds.foldl (fun acc c => 10 * acc + (c.toNat - '0'.toNat)) 0

/-- The exponent part at the head of `cs`, `0` when there is none: `e` or `E`,
an optional sign, and at least one digit. -/
def exponentPart (cs : List Char) : ℤ :=
  match cs with
  | c :: r =>
    if c = 'e' ∨ c = 'E' then
      match r with
      | '+' :: ds =>
        if (ds.takeWhile Char.isDigit).isEmpty then 0
        else (digitsValue (ds.takeWhile Char.isDigit) : ℤ)
      | '-' :: ds =>
        if (ds.takeWhile Char.isDigit).isEmpty then 0
        else -(digitsValue (ds.takeWhile Char.isDigit) : ℤ)
      | ds =>
        if (ds.takeWhile Char.isDigit).isEmpty then 0
        else (digitsValue (ds.takeWhile Char.isDigit) : ℤ)
    else 0
  | [] => 0

/-- The number denoted by the longest leading decimal literal of `cs` (sign
already removed), `NaN` when there is none. -/
def parseUnsigned (neg : Bool) (cs : List Char) : JSNum :=
  if "Infinity".toList.isPrefixOf cs then .inf neg
  else
    let intDs := cs.takeWhile Char.isDigit
    let rest := cs.dropWhile Char.isDigit
    let fracDs := match rest with
      | '.' :: r => r.takeWhile Char.isDigit
      | _ => []
    let rest2 := match rest with
      | '.' :: r => r.dropWhile Char.isDigit
      | _ => rest
    if intDs.isEmpty && fracDs.isEmpty then .nan
    else
      let m : ℚ := (digitsValue (intDs ++ fracDs) : ℚ)
      let v : ℚ := m * (10 : ℚ) ^ (exponentPart rest2 - (fracDs.length : ℤ))
      roundDouble (if neg then -v else v)

/-- The global `parseFloat` applied to a string. -/
def parseFloatString (s : String) : JSNum :=
  match s.toList.dropWhile isStrWhiteSpaceChar with
  | '+' :: cs => parseUnsigned false cs
  | '-' :: cs => parseUnsigned true cs
  | cs => parseUnsigned false cs

/-- The global `parseFloat`.  A number is first turned into its string form,
which denotes that number again. -/
def parseFloat : Arg → JSNum
  | .num x => x
  | .str s => parseFloatString s

/-! ## Values, storage and the page -/

/-- The value of a numeric property of a line item: a number, or `null` (what
`JSON.stringify` writes for a non-finite number). -/
inductive Field where
  | null
  | num (x : JSNum)
deriving DecidableEq

/-- The conversion `ToNumber` on a field. -/
def Field.toNumber : Field → JSNum
  | .null => .fin 0
  | .num x => x

/-- The string form of a field inside a template literal. -/
def Field.text : Field → Piece
  | .null => .lit "null"
  | .num x => numberText x

/-- An entry of the cart: `{ id, name, price, cost, qty }`. -/
structure LineItem where
  id : String
  name : String
  price : Field
  cost : Field
  qty : Field
deriving DecidableEq

/-- A value the variable `cart` can hold: an array of line items, or one of
the other values `JSON.parse` returns (`object` is an object that is not an
array). -/
inductive JSValue where
  | null
  | bool (b : Bool)
  | num (x : JSNum)
  | str (s : String)
  | object
  | array (items : List LineItem)
deriving DecidableEq

/-- The conversion `ToBoolean`, as `||` applies it. -/
def JSValue.truthy : JSValue → Bool
  | .null => false
  | .bool b => b
  | .num .nan => false
  | .num (.inf _) => true
  | .num (.fin q) => decide (q ≠ 0)
  | .str s => decide (s ≠ "")
  | .object => true
  | .array _ => true

/-- An exception thrown by the script or a built-in. -/
inductive JSError where
  | typeError
  | parseError
deriving DecidableEq

deriving instance DecidableEq for Except

/-- The text stored under the key `'cart'`, described by what `JSON.parse` makes
of it: rejected as malformed, or parsed to a value. -/
inductive StoredText where
  | malformed
  | json (v : JSValue)
deriving DecidableEq

/-- What `JSON.stringify` makes of a numeric field: a non-finite number is
written as `null`. -/
def Field.viaJSON : Field → Field
  | .num (.fin q) => .num (.fin q)
  | _ => .null

/-- A line item as it reads back from its serialization. -/
def LineItem.viaJSON (item : LineItem) : LineItem :=
  { item with price := item.price.viaJSON, cost := item.cost.viaJSON, qty := item.qty.viaJSON }

/-- The text `JSON.stringify(v)`. -/
def JSON.stringify : JSValue → StoredText
  | .num (.fin q) => .json (.num (.fin q))
  | .num _ => .json .null
  | .array items => .json (.array (items.map LineItem.viaJSON))
  | v => .json v

/-- The call `JSON.parse(localStorage.getItem('cart'))`: an absent key gives
`null`, whose string form parses to `null`. -/
def JSON.parse : Option StoredText → Except JSError JSValue
  | none => .ok .null
  | some .malformed => .error .parseError
  | some (.json v) => .ok v

/-- A child appended to a container: its class name and the markup assigned to
its `innerHTML`. -/
structure Row where
  className : String
  innerHTML : Text
deriving DecidableEq

/-- The state the script works on: the variable `cart`, the entry `'cart'` of
`localStorage`, the five elements the script looks up (absent or present with
their content), and the messages shown by `alert`. -/
structure Page where
  cart : JSValue
  stored : Option StoredText
  cartCount : Option Text
  cartItems : Option (List Row)
  cartTotal : Option Text
  checkoutItems : Option (List Row)
  checkoutTotal : Option Text
  alerts : List String
deriving DecidableEq

/-! ## The script -/

/-- Lines 14-20: `loadCartFromStorage`. -/
def loadCartFromStorage (p : Page) : Page :=
  match JSON.parse p.stored with
  | .ok v => { p with cart := if v.truthy then v else .array [] }
  | .error _ => { p with cart := .array [] }

/-- Lines 23-25: `saveCart`. -/
def saveCart (p : Page) : Page :=
  { p with stored := some (JSON.stringify p.cart) }

/-- The reduction of line 31: `cart.reduce((sum, item) => sum + item.qty, 0)`. -/
def totalItems (items : List LineItem) : JSNum :=
  items.foldl (fun sum item => jsAdd sum item.qty.toNumber) (.fin 0)

/-- Lines 28-34: `updateCartCount`. -/
def updateCartCount (p : Page) : Except JSError Page :=
  match p.cartCount with
  | none => .ok p
  | some _ =>
    match p.cart with
    | .array items => .ok { p with cartCount := some [numberText (totalItems items)] }
    | _ => .error .typeError

/-- The effect of `existing.qty += 1` on the array, `existing` being the first
entry whose id is `id`. -/
def bumpFirst (id : String) : List LineItem → List LineItem
  | [] => []
  | item :: rest =>
    if item.id = id then { item with qty := .num (jsAdd item.qty.toNumber (.fin 1)) } :: rest
    else item :: bumpFirst id rest

/-- Lines 40-47 on the array held by `cart`. -/
def addItem (id name : String) (price cost : Arg) (items : List LineItem) : List LineItem :=
  let priceNum := parseFloat price
  let costNum := parseFloat cost
  match items.find? (fun item => decide (item.id = id)) with
  | some _ => bumpFirst id items
  | none => items ++ [{ id := id, name := name, price := .num priceNum, cost := .num costNum,
                        qty := .num (.fin 1) }]

/-- Lines 38-51: `addToCart`. -/
def addToCart (id name : String) (price cost : Arg) (p : Page) : Except JSError Page :=
  match p.cart with
  | .array items => do
    let p1 := saveCart { p with cart := .array (addItem id name price cost items) }
    let p2 ← updateCartCount p1
    pure { p2 with alerts := p2.alerts ++ [name ++ " added to cart"] }
  | _ => .error .typeError

/-- The product `item.price * item.qty`. -/
def lineTotal (item : LineItem) : JSNum :=
  jsMul item.price.toNumber item.qty.toNumber

/-- The value of `total` after the loop of lines 69-80 (and 90-100). -/
def grandTotal (items : List LineItem) : JSNum :=
  items.foldl (fun total item => jsAdd total (lineTotal item)) (.fin 0)

/-- Lines 71-77: the row built for an entry on the cart page. -/
def cartRow (item : LineItem) : Row :=
  { className := "cart-row"
    innerHTML :=
      [.lit "\n      <span>", .lit item.name, .lit " (x", item.qty.text,
       .lit ")</span>\n      <span>$", toFixed2 (lineTotal item),
       .lit "</span>\n      <button onclick=\"removeFromCart('", .lit item.id,
       .lit "')\">Remove</button>\n    "] }

/-- Lines 92-97: the row built for an entry on the checkout page. -/
def checkoutRow (item : LineItem) : Row :=
  { className := "checkout-row"
    innerHTML :=
      [.lit "\n      <span>", .lit item.name, .lit " (x", item.qty.text,
       .lit ")</span>\n      <span>$", toFixed2 (lineTotal item),
       .lit "</span>\n    "] }

/-- Lines 64-82: `displayCartItems`. -/
def displayCartItems (p : Page) : Except JSError Page :=
  match p.cartItems, p.cartTotal with
  | some _, some _ =>
    match p.cart with
    | .array items =>
      .ok { p with cartItems := some (items.map cartRow)
                   cartTotal := some [.lit "$", toFixed2 (grandTotal items)] }
    | _ => .error .typeError
  | _, _ => .ok p

/-- Lines 85-102: `displayCheckoutItems`. -/
def displayCheckoutItems (p : Page) : Except JSError Page :=
  match p.checkoutItems, p.checkoutTotal with
  | some _, some _ =>
    match p.cart with
    | .array items =>
      .ok { p with checkoutItems := some (items.map checkoutRow)
                   checkoutTotal := some [.lit "$", toFixed2 (grandTotal items)] }
    | _ => .error .typeError
  | _, _ => .ok p

/-- Lines 54-61: `removeFromCart`. -/
def removeFromCart (id : String) (p : Page) : Except JSError Page :=
  match p.cart with
  | .array items => do
    let p1 := saveCart { p with cart := .array (items.filter (fun item => decide (item.id ≠ id))) }
    let p2 ← updateCartCount p1
    let p3 ← displayCartItems p2
    displayCheckoutItems p3
  | _ => .error .typeError

/-- Lines 105-111: the `DOMContentLoaded` handler. -/
def onDOMContentLoaded (p : Page) : Except JSError Page := do
  let p1 ← updateCartCount (loadCartFromStorage p)
  let p2 ← displayCartItems p1
  displayCheckoutItems p2

/-- A call made from the page markup. -/
inductive Call where
  | add (id name : String) (price cost : Arg)
  | remove (id : String)
deriving DecidableEq

/-- The effect of one call. -/
def Call.run : Call → Page → Except JSError Page
  | .add id name price cost, p => addToCart id name price cost p
  | .remove id, p => removeFromCart id p

/-- The effect of a sequence of calls, in order; an exception ends it. -/
def runCalls : List Call → Page → Except JSError Page
  | [], p => .ok p
  | c :: cs, p =>
    match c.run p with
    | .ok p1 => runCalls cs p1
    | .error e => .error e

/-! ## Sequences of calls and the cart invariant -/

/-- The array left by one call. -/
def Call.step : Call → List LineItem → List LineItem
  | .add id name price cost, items => addItem id name price cost items
  | .remove id, items => items.filter (fun item => decide (item.id ≠ id))

/-- The array left by a sequence of calls. -/
def stepCalls (calls : List Call) (items : List LineItem) : List LineItem :=
  calls.foldl (fun acc c => c.step acc) items

/-- A quantity that is a whole number between `1` and `2 ^ 53`. -/
def QtyOK (f : Field) : Prop := ∃ n : ℕ, 1 ≤ n ∧ n ≤ 2 ^ 53 ∧ f = .num (.fin n)

/-- The invariant of the cart: ids are pairwise distinct and quantities are
whole numbers from `1` to `2 ^ 53`. -/
def CartOK (items : List LineItem) : Prop :=
  (items.map (fun item => item.id)).Nodup ∧ ∀ item ∈ items, QtyOK item.qty

/-- The cart page on a first visit: nothing stored, the badge and the cart
containers present and empty, the checkout containers absent. -/
def firstVisit : Page :=
  { cart := .array [], stored := none, cartCount := some [], cartItems := some [],
    cartTotal := some [], checkoutItems := none, checkoutTotal := none, alerts := [] }

/-- The number denoted by the literal `9.99`. -/
def lit999 : JSNum := roundDouble (999 / 100)

/-- A cart page whose stored text is `5`. -/
def storedFive : Page := { firstVisit with stored := some (.json (.num (.fin 5))) }

/-- A cart page that holds two entries, `"A"` with `qty = 2` and `"B"` with
`qty = 1`, as two calls for `"A"` and one for `"B"` leave it. -/
def twoEntries : Page :=
  { firstVisit with
    cart := .array [⟨"A", "Widget", .num lit999, .num (.fin 4), .num (.fin 2)⟩,
                    ⟨"B", "Gadget", .num (.fin 5), .num (.fin 2), .num (.fin 1)⟩] }

/-- An entry whose price and cost are finite numbers. -/
def FiniteMoney (item : LineItem) : Prop :=
  (∃ q, item.price = .num (.fin q)) ∧ (∃ q, item.cost = .num (.fin q))

/-- The exact value of a quantity, `0` where it is not a finite number. -/
def qtyValue : Field → ℚ
  | .num (.fin q) => q
  | _ => 0

/-- The sum of the quantities as the specification words it: the exact sum of
`qty` over all entries. -/
def exactItemCount (items : List LineItem) : ℚ :=
  (items.map (fun item => qtyValue item.qty)).sum

/-- A page with all five elements present, holding prior content, whose cart is
the single entry `"A"` with price `9.99` and `qty = 2`. -/
def oneEntry : Page :=
  { cart := .array [⟨"A", "Widget", .num lit999, .num (.fin 4), .num (.fin 2)⟩]
    stored := none
    cartCount := some [.lit "7"]
    cartItems := some [⟨"cart-row", [.lit "old"]⟩, ⟨"cart-row", [.lit "older"]⟩]
    cartTotal := some [.lit "$1.00"]
    checkoutItems := some [⟨"checkout-row", [.lit "old"]⟩]
    checkoutTotal := some []
    alerts := [] }

/-! ## Rounding: integers up to `2 ^ 53` are doubles -/

theorem log2Fuel_spec (fuel n : ℕ) (hn : 1 ≤ n) (hf : n ≤ fuel) :
    2 ^ log2Fuel fuel n ≤ n ∧ n < 2 ^ (log2Fuel fuel n + 1) := by
  induction fuel generalizing n with
  | zero => omega
  | succ fuel ih =>
    unfold log2Fuel
    by_cases h2 : n < 2
    · simp only [h2, if_true]
      constructor <;> simp <;> omega
    · simp only [h2, if_false]
      have h := ih (n / 2) (by omega) (by omega)
      constructor
      · rw [pow_succ]; omega
      · rw [pow_succ]; omega

theorem natLog2_spec (n : ℕ) (hn : 1 ≤ n) : 2 ^ natLog2 n ≤ n ∧ n < 2 ^ (natLog2 n + 1) :=
  log2Fuel_spec n n hn le_rfl

theorem natLog2_one : natLog2 1 = 0 := by decide

theorem floorLog2_natCast (n : ℕ) (hn : 1 ≤ n) : floorLog2 (n : ℚ) = (natLog2 n : ℤ) := by
  unfold floorLog2
  have h1 : ((n : ℚ)).num.natAbs = n := by simp
  have h2 : ((n : ℚ)).den = 1 := by simp
  simp only [h1, h2, natLog2_one]
  have h := (natLog2_spec n hn).1
  have h3 : (2 : ℚ) ^ ((natLog2 n : ℤ) - ((0 : ℕ) : ℤ)) ≤ (n : ℚ) := by
    simp only [Nat.cast_zero, sub_zero, zpow_natCast]
    exact_mod_cast h
  rw [if_pos h3]
  simp

theorem roundHalfEven_natCast (n : ℕ) : roundHalfEven (n : ℚ) = n := by
  unfold roundHalfEven
  simp

theorem roundDouble_natCast (n : ℕ) (hn : n ≤ 2 ^ 53) : roundDouble (n : ℚ) = .fin n := by
  rcases Nat.eq_zero_or_pos n with h0 | hpos
  · subst h0; simp [roundDouble]
  rcases Nat.lt_or_ge n (2 ^ 53) with hlt | hge
  · have hk : natLog2 n ≤ 52 := by
      have h := (natLog2_spec n hpos).1
      by_contra hc
      have : 2 ^ 53 ≤ 2 ^ natLog2 n := Nat.pow_le_pow_right (by norm_num) (by omega)
      omega
    have hq : (n : ℚ) ≠ 0 := by exact_mod_cast (by omega : n ≠ 0)
    have hnn : ¬ ((n : ℚ) < 0) := by
      have : (0 : ℚ) ≤ n := Nat.cast_nonneg n
      linarith
    have habs : |(n : ℚ)| = n := abs_of_nonneg (Nat.cast_nonneg n)
    have he : max ((natLog2 n : ℤ) - 52) (-1074) = -((52 - natLog2 n : ℕ) : ℤ) := by
      rw [max_eq_left (by omega)]
      omega
    have hscale : (n : ℚ) / (2 : ℚ) ^ (-((52 - natLog2 n : ℕ) : ℤ)) = ((n * 2 ^ (52 - natLog2 n) : ℕ) : ℚ) := by
      rw [zpow_neg, zpow_natCast]
      push_cast
      field_simp
    have hback : ((n * 2 ^ (52 - natLog2 n) : ℕ) : ℚ) * (2 : ℚ) ^ (-((52 - natLog2 n : ℕ) : ℤ)) = n := by
      rw [zpow_neg, zpow_natCast]
      push_cast
      field_simp
    have hbig : ¬ ((2 : ℚ) ^ (1024 : ℤ) ≤ (n : ℚ)) := by
      have h1 : (n : ℚ) < 2 ^ 53 := by exact_mod_cast hlt
      have h2 : (2 : ℚ) ^ 53 ≤ (2 : ℚ) ^ (1024 : ℤ) := by norm_num
      linarith
    unfold roundDouble
    simp only [hq, if_false, habs, floorLog2_natCast n hpos, he, hscale, roundHalfEven_natCast,
      hback, hbig, hnn]
  · have : n = 2 ^ 53 := le_antisymm hn hge
    subst this
    have : ((2 ^ 53 : ℕ) : ℚ) = 9007199254740992 := by norm_num
    rw [this]
    decide!

theorem updateCartCount_array (p : Page) (items : List LineItem) (h : p.cart = .array items) :
    updateCartCount p =
      .ok { p with cartCount := p.cartCount.map fun _ => [numberText (totalItems items)] } := by
  obtain ⟨cart, stored, cc, ci, ct, ki, kt, al⟩ := p
  simp only at h
  subst h
  cases cc <;> simp [updateCartCount]

theorem displayCartItems_array (p : Page) (items : List LineItem) (h : p.cart = .array items) :
    displayCartItems p =
      .ok (if p.cartItems.isSome ∧ p.cartTotal.isSome then
        { p with cartItems := some (items.map cartRow)
                 cartTotal := some [.lit "$", toFixed2 (grandTotal items)] }
        else p) := by
  obtain ⟨cart, stored, cc, ci, ct, ki, kt, al⟩ := p
  simp only at h
  subst h
  cases ci <;> cases ct <;> simp [displayCartItems]

theorem displayCheckoutItems_array (p : Page) (items : List LineItem) (h : p.cart = .array items) :
    displayCheckoutItems p =
      .ok (if p.checkoutItems.isSome ∧ p.checkoutTotal.isSome then
        { p with checkoutItems := some (items.map checkoutRow)
                 checkoutTotal := some [.lit "$", toFixed2 (grandTotal items)] }
        else p) := by
  obtain ⟨cart, stored, cc, ci, ct, ki, kt, al⟩ := p
  simp only at h
  subst h
  cases ki <;> cases kt <;> simp [displayCheckoutItems]

theorem addToCart_array (id name : String) (price cost : Arg) (p : Page) (items : List LineItem)
    (h : p.cart = .array items) :
    addToCart id name price cost p =
      .ok { p with
        cart := .array (addItem id name price cost items)
        stored := some (JSON.stringify (.array (addItem id name price cost items)))
        cartCount := p.cartCount.map fun _ =>
          [numberText (totalItems (addItem id name price cost items))]
        alerts := p.alerts ++ [name ++ " added to cart"] } := by
  obtain ⟨cart, stored, cc, ci, ct, ki, kt, al⟩ := p
  simp only at h
  subst h
  simp only [addToCart, saveCart]
  rw [updateCartCount_array _ _ rfl]
  rfl

theorem removeFromCart_array (id : String) (p : Page) (items : List LineItem)
    (h : p.cart = .array items) :
    ∃ p1, removeFromCart id p = .ok p1 ∧
      p1.cart = .array (items.filter (fun item => decide (item.id ≠ id))) ∧
      p1.stored = some (JSON.stringify (.array (items.filter (fun item => decide (item.id ≠ id))))) ∧
      p1.cartCount = p.cartCount.map (fun _ =>
        [numberText (totalItems (items.filter (fun item => decide (item.id ≠ id))))]) ∧
      p1.alerts = p.alerts := by
  obtain ⟨cart, stored, cc, ci, ct, ki, kt, al⟩ := p
  simp only at h
  subst h
  simp only [removeFromCart, saveCart]
  rw [updateCartCount_array _ _ rfl]
  simp only [bind, Except.bind]
  rw [displayCartItems_array _ _ rfl]
  simp only
  split_ifs
  · rw [displayCheckoutItems_array _ _ rfl]
    split_ifs <;> exact ⟨_, rfl, rfl, rfl, rfl, rfl⟩
  · rw [displayCheckoutItems_array _ _ rfl]
    split_ifs <;> exact ⟨_, rfl, rfl, rfl, rfl, rfl⟩

theorem run_array (c : Call) (p : Page) (items : List LineItem) (h : p.cart = .array items) :
    ∃ p1, c.run p = .ok p1 ∧ p1.cart = .array (c.step items) ∧
      p1.stored = some (JSON.stringify (.array (c.step items))) ∧
      p1.cartCount = p.cartCount.map (fun _ => [numberText (totalItems (c.step items))]) := by
  cases c with
  | add id name price cost =>
    refine ⟨_, addToCart_array id name price cost p items h, rfl, rfl, rfl⟩
  | remove id =>
    obtain ⟨p1, h1, h2, h3, h4, _⟩ := removeFromCart_array id p items h
    exact ⟨p1, h1, h2, h3, h4⟩

theorem runCalls_array (calls : List Call) (p : Page) (items : List LineItem)
    (h : p.cart = .array items) :
    ∃ p1, runCalls calls p = .ok p1 ∧ p1.cart = .array (stepCalls calls items) ∧
      (calls ≠ [] → p1.stored = some (JSON.stringify (.array (stepCalls calls items))) ∧
        p1.cartCount = p.cartCount.map (fun _ => [numberText (totalItems (stepCalls calls items))])) ∧
      (p1.cartCount.isSome = p.cartCount.isSome) := by
  induction calls generalizing p items with
  | nil => exact ⟨p, rfl, h, fun hne => absurd rfl hne, rfl⟩
  | cons c cs ih =>
    obtain ⟨p1, h1, h2, h3, h4⟩ := run_array c p items h
    obtain ⟨p2, k1, k2, k3, k4⟩ := ih p1 (c.step items) h2
    refine ⟨p2, ?_, ?_, ?_, ?_⟩
    · simp only [runCalls, h1, k1]
    · simpa [stepCalls] using k2
    · intro _
      by_cases hcs : cs = []
      · subst hcs
        simp only [runCalls, Except.ok.injEq] at k1
        subst k1
        exact ⟨h3, h4⟩
      · obtain ⟨m1, m2⟩ := k3 hcs
        refine ⟨m1, ?_⟩
        rw [m2, h4]
        cases p.cartCount <;> rfl
    · rw [k4, h4]
      cases p.cartCount <;> rfl

theorem find_none_of_fresh (id : String) (items : List LineItem)
    (h : ∀ item ∈ items, item.id ≠ id) :
    items.find? (fun item => decide (item.id = id)) = none := by
  rw [List.find?_eq_none]
  intro item hmem
  simpa using h item hmem

theorem find_some_of_mem (id : String) (items : List LineItem) (e : LineItem)
    (hmem : e ∈ items) (hid : e.id = id) :
    ∃ x, items.find? (fun item => decide (item.id = id)) = some x := by
  cases hf : items.find? (fun item => decide (item.id = id)) with
  | some x => exact ⟨x, rfl⟩
  | none =>
    rw [List.find?_eq_none] at hf
    have := hf e hmem
    simp [hid] at this

theorem addItem_fresh (id name : String) (price cost : Arg) (items : List LineItem)
    (h : ∀ item ∈ items, item.id ≠ id) :
    addItem id name price cost items =
      items ++ [{ id := id, name := name, price := .num (parseFloat price),
                  cost := .num (parseFloat cost), qty := .num (.fin 1) }] := by
  simp only [addItem, find_none_of_fresh id items h]

theorem addItem_present (id name : String) (price cost : Arg) (items : List LineItem)
    (e : LineItem) (hmem : e ∈ items) (hid : e.id = id) :
    addItem id name price cost items = bumpFirst id items := by
  obtain ⟨x, hx⟩ := find_some_of_mem id items e hmem hid
  simp only [addItem, hx]

theorem bumpFirst_fresh (id : String) (items : List LineItem)
    (h : ∀ item ∈ items, item.id ≠ id) : bumpFirst id items = items := by
  induction items with
  | nil => rfl
  | cons a rest ih =>
    have ha : a.id ≠ id := h a (List.mem_cons_self _ _)
    simp only [bumpFirst, ha, if_false]
    rw [ih (fun item hm => h item (List.mem_cons_of_mem _ hm))]

theorem bumpFirst_split (id : String) (pre post : List LineItem) (e : LineItem)
    (hpre : ∀ item ∈ pre, item.id ≠ id) (hid : e.id = id) :
    bumpFirst id (pre ++ e :: post) =
      pre ++ { e with qty := .num (jsAdd e.qty.toNumber (.fin 1)) } :: post := by
  induction pre with
  | nil => simp [bumpFirst, hid]
  | cons a rest ih =>
    have ha : a.id ≠ id := hpre a (List.mem_cons_self _ _)
    have hrec := ih (fun item hm => hpre item (List.mem_cons_of_mem _ hm))
    show bumpFirst id (a :: (rest ++ e :: post)) = a :: (rest ++ _ :: post)
    simp only [bumpFirst, ha, if_false, hrec]

theorem bumpFirst_ids (id : String) (items : List LineItem) :
    (bumpFirst id items).map (fun item => item.id) = items.map (fun item => item.id) := by
  induction items with
  | nil => rfl
  | cons a rest ih =>
    simp only [bumpFirst]
    split_ifs
    · simp
    · simp [ih]

theorem jsAdd_one_of_lt (n : ℕ) (h : n < 2 ^ 53) :
    jsAdd (.fin n) (.fin 1) = .fin ((n + 1 : ℕ) : ℚ) := by
  have := roundDouble_natCast (n + 1) (by omega)
  simp only [jsAdd]
  rw [← this]
  push_cast
  rfl

theorem jsAdd_one_top : jsAdd (.fin ((2 ^ 53 : ℕ) : ℚ)) (.fin 1) = .fin ((2 ^ 53 : ℕ) : ℚ) := by
  have : ((2 ^ 53 : ℕ) : ℚ) = 9007199254740992 := by norm_num
  rw [this]
  decide!

theorem QtyOK_bump (f : Field) (h : QtyOK f) : QtyOK (.num (jsAdd f.toNumber (.fin 1))) := by
  obtain ⟨n, h1, h2, rfl⟩ := h
  rcases Nat.lt_or_ge n (2 ^ 53) with hlt | hge
  · refine ⟨n + 1, by omega, by omega, ?_⟩
    simp only [Field.toNumber]
    rw [jsAdd_one_of_lt n hlt]
  · have : n = 2 ^ 53 := le_antisymm h2 hge
    subst this
    refine ⟨2 ^ 53, by norm_num, le_rfl, ?_⟩
    simp only [Field.toNumber]
    rw [jsAdd_one_top]

theorem QtyOK_one : QtyOK (.num (.fin 1)) := ⟨1, le_rfl, by norm_num, by simp⟩

theorem bumpFirst_qty (id : String) (items : List LineItem)
    (h : ∀ item ∈ items, QtyOK item.qty) : ∀ item ∈ bumpFirst id items, QtyOK item.qty := by
  induction items with
  | nil => intro item hm; simp [bumpFirst] at hm
  | cons a rest ih =>
    intro item hm
    simp only [bumpFirst] at hm
    split_ifs at hm with hc
    · rcases List.mem_cons.mp hm with rfl | hr
      · exact QtyOK_bump _ (h a (List.mem_cons_self _ _))
      · exact h item (List.mem_cons_of_mem _ hr)
    · rcases List.mem_cons.mp hm with rfl | hr
      · exact h _ (List.mem_cons_self _ _)
      · exact ih (fun i hi => h i (List.mem_cons_of_mem _ hi)) item hr

theorem addItem_cases (id name : String) (price cost : Arg) (items : List LineItem) :
    (addItem id name price cost items = bumpFirst id items ∧ ∃ e ∈ items, e.id = id) ∨
    ((∀ item ∈ items, item.id ≠ id) ∧ addItem id name price cost items =
      items ++ [{ id := id, name := name, price := .num (parseFloat price),
                  cost := .num (parseFloat cost), qty := .num (.fin 1) }]) := by
  by_cases h : ∃ e ∈ items, e.id = id
  · obtain ⟨e, hm, hid⟩ := h
    exact Or.inl ⟨addItem_present id name price cost items e hm hid, e, hm, hid⟩
  · push_neg at h
    exact Or.inr ⟨h, addItem_fresh id name price cost items h⟩

theorem CartOK_step (c : Call) (items : List LineItem) (h : CartOK items) :
    CartOK (c.step items) := by
  obtain ⟨hnd, hq⟩ := h
  cases c with
  | add id name price cost =>
    simp only [Call.step]
    rcases addItem_cases id name price cost items with ⟨heq, _⟩ | ⟨hfresh, heq⟩
    · rw [heq]
      exact ⟨by rw [bumpFirst_ids]; exact hnd, bumpFirst_qty id items hq⟩
    · rw [heq]
      constructor
      · rw [List.map_append, List.nodup_append]
        refine ⟨hnd, by simp, ?_⟩
        intro a ha hb
        simp only [List.map_cons, List.map_nil, List.mem_singleton] at hb
        obtain ⟨item, hm, rfl⟩ := List.mem_map.mp ha
        exact hfresh item hm hb
      · intro item hm
        rcases List.mem_append.mp hm with h1 | h1
        · exact hq item h1
        · simp only [List.mem_singleton] at h1
          subst h1
          exact QtyOK_one
  | remove id =>
    simp only [Call.step]
    constructor
    · exact (hnd.sublist ((List.filter_sublist items).map _))
    · intro item hm
      exact hq item (List.mem_filter.mp hm).1

theorem CartOK_stepCalls (calls : List Call) (items : List LineItem) (h : CartOK items) :
    CartOK (stepCalls calls items) := by
  induction calls generalizing items with
  | nil => exact h
  | cons c cs ih => exact ih (c.step items) (CartOK_step c items h)

theorem CartOK_nil : CartOK [] := ⟨List.nodup_nil, fun _ h => absurd h (List.not_mem_nil _)⟩

theorem jsAdd_one_one : jsAdd (.fin 1) (.fin 1) = .fin 2 := by decide!

/-- C1: in a cart with no entry of id `id`, two calls of `addToCart` with that
id return and leave the old entries followed by one new entry with that id and
`qty = 2`; that entry is the only one with the id and the cart is one longer. -/
theorem C1_add_same_id_twice (p : Page) (items : List LineItem) (id name : String)
    (price cost : Arg) (hcart : p.cart = .array items)
    (hfresh : ∀ item ∈ items, item.id ≠ id) :
    ∃ p1 p2 entry,
      addToCart id name price cost p = .ok p1 ∧ addToCart id name price cost p1 = .ok p2 ∧
      p2.cart = .array (items ++ [entry]) ∧
      entry = { id := id, name := name, price := .num (parseFloat price),
                cost := .num (parseFloat cost), qty := .num (.fin 2) } ∧
      (items ++ [entry]).filter (fun item => decide (item.id = id)) = [entry] ∧
      (items ++ [entry]).length = items.length + 1 := by
  obtain ⟨p1, hp1, hc1⟩ : ∃ p1, addToCart id name price cost p = .ok p1 ∧
      p1.cart = .array (items ++
        [⟨id, name, .num (parseFloat price), .num (parseFloat cost), .num (.fin 1)⟩]) := by
    refine ⟨_, addToCart_array id name price cost p items hcart, ?_⟩
    rw [addItem_fresh id name price cost items hfresh]
  have h2 := addToCart_array id name price cost p1 _ hc1
  rw [addItem_present id name price cost _ _ (List.mem_append_right _ (List.mem_singleton_self _))
    rfl, bumpFirst_split id items [] _ hfresh rfl] at h2
  simp only [Field.toNumber, jsAdd_one_one] at h2
  refine ⟨p1, _, _, hp1, h2, rfl, rfl, ?_, by simp⟩
  rw [List.filter_append, List.filter_eq_nil_iff.mpr (by simpa using hfresh)]
  simp

/-- C1, the scenario of the specification: from the empty cart, two calls
`add("A", "Widget", 9.99, 4.00)` leave the single entry with `qty = 2` and
`price = 9.99`, and the badge shows the count `2`. -/
theorem C1_add_same_id_twice_witness :
    (∀ item ∈ ([] : List LineItem), item.id ≠ "A") ∧
    (∃ p1 p2 entry,
      addToCart "A" "Widget" (.num lit999) (.num (.fin 4)) firstVisit = .ok p1 ∧
      addToCart "A" "Widget" (.num lit999) (.num (.fin 4)) p1 = .ok p2 ∧
      p2.cart = .array ([] ++ [entry]) ∧
      entry = { id := "A", name := "Widget", price := .num (parseFloat (.num lit999)),
                cost := .num (parseFloat (.num (.fin 4))), qty := .num (.fin 2) } ∧
      ([] ++ [entry]).filter (fun item => decide (item.id = "A")) = [entry] ∧
      ([] ++ [entry]).length = ([] : List LineItem).length + 1) ∧
    ((runCalls [.add "A" "Widget" (.num lit999) (.num (.fin 4)),
        .add "A" "Widget" (.num lit999) (.num (.fin 4))] firstVisit).toOption.map
      (fun p => (p.cart, p.cartCount)) =
      some (.array [{ id := "A", name := "Widget", price := .num lit999, cost := .num (.fin 4),
                      qty := .num (.fin 2) }], some [.number 2])) :=
  ⟨by simp, C1_add_same_id_twice firstVisit [] "A" "Widget" (.num lit999) (.num (.fin 4)) rfl
    (by simp), by decide!⟩

/-! ## C2: loading -/

theorem load_absent_or_malformed (p : Page) (h : p.stored = none ∨ p.stored = some .malformed) :
    (loadCartFromStorage p).cart = .array [] := by
  rcases h with h | h <;> simp [loadCartFromStorage, JSON.parse, h, JSValue.truthy]

theorem load_falsy (p : Page) (v : JSValue) (h : p.stored = some (.json v))
    (hv : v.truthy = false) : (loadCartFromStorage p).cart = .array [] := by
  simp [loadCartFromStorage, JSON.parse, h, hv]

theorem load_truthy (p : Page) (v : JSValue) (h : p.stored = some (.json v))
    (hv : v.truthy = true) : (loadCartFromStorage p).cart = v := by
  simp [loadCartFromStorage, JSON.parse, h, hv]

theorem load_non_array_throws (p : Page) (v : JSValue) (h : p.stored = some (.json v))
    (hv : v.truthy = true) (hna : ∀ items, v ≠ .array items) (hbadge : p.cartCount.isSome) :
    onDOMContentLoaded p = .error .typeError := by
  obtain ⟨cart, stored, cc, ci, ct, ki, kt, al⟩ := p
  simp only at h
  subst h
  cases cc with
  | none => simp at hbadge
  | some t =>
    cases v <;> simp_all [onDOMContentLoaded, loadCartFromStorage, JSON.parse, updateCartCount,
      bind, Except.bind]

theorem load_empty_returns (p : Page)
    (h : p.stored = none ∨ p.stored = some .malformed ∨
      ∃ v, p.stored = some (.json v) ∧ v.truthy = false) :
    ∃ p1, onDOMContentLoaded p = .ok p1 ∧ p1.cart = .array [] := by
  have hload : (loadCartFromStorage p).cart = .array [] := by
    rcases h with h | h | ⟨v, h, hv⟩
    · exact load_absent_or_malformed p (Or.inl h)
    · exact load_absent_or_malformed p (Or.inr h)
    · exact load_falsy p v h hv
  simp only [onDOMContentLoaded, bind, Except.bind]
  rw [updateCartCount_array _ _ hload]
  simp only
  rw [displayCartItems_array _ _ (by exact hload)]
  simp only
  split_ifs
  · rw [displayCheckoutItems_array _ _ (by exact hload)]
    split_ifs <;> exact ⟨_, rfl, hload⟩
  · rw [displayCheckoutItems_array _ _ (by exact hload)]
    split_ifs <;> exact ⟨_, rfl, hload⟩

/-- C2, evaluated where the code departs from it: with the text `5` stored under
`'cart'`, `loadCartFromStorage` returns and leaves `cart = 5`, which is not the
empty array, and the page-load handler then throws a `TypeError` in
`updateCartCount`. -/
theorem C2_truthy_non_array_is_kept :
    (loadCartFromStorage storedFive).cart = .num (.fin 5) ∧
    (loadCartFromStorage storedFive).cart ≠ .array [] ∧
    updateCartCount (loadCartFromStorage storedFive) = .error .typeError ∧
    onDOMContentLoaded storedFive = .error .typeError := by
  decide!

/-! ## C4: removal -/

/-- C4: `removeFromCart(id)` returns and leaves exactly the entries whose id
differs from `id`, in their order and unchanged; none of them has the id, and a
cart with no such entry is left as it was. -/
theorem C4_remove_keeps_the_others (p : Page) (items : List LineItem) (id : String)
    (hcart : p.cart = .array items) :
    ∃ p1 kept, removeFromCart id p = .ok p1 ∧ p1.cart = .array kept ∧
      kept = items.filter (fun item => decide (item.id ≠ id)) ∧
      kept.Sublist items ∧
      (∀ item, item ∈ kept ↔ item ∈ items ∧ item.id ≠ id) ∧
      (∀ item, item.id ≠ id → kept.count item = items.count item) ∧
      (∀ item ∈ kept, item.id ≠ id) ∧
      ((∀ item ∈ items, item.id ≠ id) → kept = items) := by
  obtain ⟨p1, h1, h2, _⟩ := removeFromCart_array id p items hcart
  refine ⟨p1, _, h1, h2, rfl, List.filter_sublist items, ?_, ?_, ?_, ?_⟩
  · intro item
    simp [List.mem_filter]
  · intro item hne
    rw [List.count_filter]
    simpa using hne
  · intro item hm
    simpa using (List.mem_filter.mp hm).2
  · intro hall
    rw [List.filter_eq_self]
    intro item hm
    simpa using hall item hm

/-- C4 on the cart `[A, B]`: removing `"A"` leaves `[B]`. -/
theorem C4_remove_keeps_the_others_witness :
    twoEntries.cart = .array [⟨"A", "Widget", .num lit999, .num (.fin 4), .num (.fin 2)⟩,
                              ⟨"B", "Gadget", .num (.fin 5), .num (.fin 2), .num (.fin 1)⟩] ∧
    (∃ p1 kept, removeFromCart "A" twoEntries = .ok p1 ∧ p1.cart = .array kept ∧
      kept = [⟨"B", "Gadget", .num (.fin 5), .num (.fin 2), .num (.fin 1)⟩]) := by
  refine ⟨rfl, ?_⟩
  obtain ⟨p1, kept, h1, h2, h3, _⟩ := C4_remove_keeps_the_others twoEntries _ "A" rfl
  refine ⟨p1, kept, h1, h2, ?_⟩
  rw [h3]
  decide

/-! ## C5: persistence -/

theorem run_ok_array (c : Call) (p p1 : Page) (h : c.run p = .ok p1) :
    ∃ items, p.cart = .array items := by
  obtain ⟨cart, stored, cc, ci, ct, ki, kt, al⟩ := p
  cases cart with
  | array items => exact ⟨items, rfl⟩
  | _ => cases c <;> simp [Call.run, addToCart, removeFromCart] at h

theorem load_keeps_stored (p : Page) : (loadCartFromStorage p).stored = p.stored := by
  unfold loadCartFromStorage
  split <;> rfl

theorem load_load (p : Page) : loadCartFromStorage (loadCartFromStorage p) = loadCartFromStorage p := by
  obtain ⟨cart, stored, cc, ci, ct, ki, kt, al⟩ := p
  cases hparse : JSON.parse stored with
  | ok v => simp [loadCartFromStorage, hparse]
  | error e => simp [loadCartFromStorage, hparse]

theorem viaJSON_viaJSON (item : LineItem) : item.viaJSON.viaJSON = item.viaJSON := by
  obtain ⟨id, name, price, cost, qty⟩ := item
  have hf : ∀ f : Field, f.viaJSON.viaJSON = f.viaJSON := by
    intro f
    rcases f with _ | x
    · rfl
    · cases x <;> rfl
  simp only [LineItem.viaJSON, hf]

theorem load_saved_array (p : Page) (items : List LineItem)
    (hs : p.stored = some (JSON.stringify (.array items))) :
    JSON.stringify (loadCartFromStorage p).cart = JSON.stringify (.array items) := by
  simp [loadCartFromStorage, hs, JSON.stringify, JSON.parse, JSValue.truthy, viaJSON_viaJSON]

/-- C5: a call of `addToCart` or `removeFromCart` that returns leaves under
`'cart'` the serialization of the cart as it is after the call, whatever was
stored before, and it returns whenever the cart is an array.  Hence in every
state reached from a load by such calls the stored value and the cart agree:
after one or more calls the stored value is the serialization of the cart;
before any call the cart is what the stored value loads to; and in every case
a load of the stored value gives a cart with the serialization of `cart`. -/
theorem C5_persisted_after_every_call :
    (∀ (c : Call) (p p1 : Page), c.run p = .ok p1 →
      p1.stored = some (JSON.stringify p1.cart)) ∧
    (∀ (c : Call) (p : Page) (items : List LineItem), p.cart = .array items →
      ∃ p1, c.run p = .ok p1) ∧
    (∀ (p0 : Page) (calls : List Call) (p : Page),
      runCalls calls (loadCartFromStorage p0) = .ok p →
      (calls ≠ [] → p.stored = some (JSON.stringify p.cart)) ∧
      (calls = [] → (loadCartFromStorage p).cart = p.cart) ∧
      JSON.stringify (loadCartFromStorage p).cart = JSON.stringify p.cart) ∧
    (∀ (p0 : Page) (calls : List Call) (items : List LineItem),
      (loadCartFromStorage p0).cart = .array items →
      ∃ p, runCalls calls (loadCartFromStorage p0) = .ok p) := by
  refine ⟨?_, ?_, ?_, ?_⟩
  · intro c p p1 h
    obtain ⟨items, hitems⟩ := run_ok_array c p p1 h
    obtain ⟨p2, k1, k2, k3, _⟩ := run_array c p items hitems
    rw [h] at k1
    cases k1
    rw [k3, k2]
  · intro c p items h
    obtain ⟨p1, k1, _⟩ := run_array c p items h
    exact ⟨p1, k1⟩
  · intro p0 calls p h
    cases calls with
    | nil =>
      simp only [runCalls, Except.ok.injEq] at h
      subst h
      refine ⟨fun hne => absurd rfl hne, fun _ => by rw [load_load], by rw [load_load]⟩
    | cons c calls =>
      have hfirst : ∃ q, c.run (loadCartFromStorage p0) = .ok q := by
        cases hq : c.run (loadCartFromStorage p0) with
        | ok q => exact ⟨q, rfl⟩
        | error e => simp [runCalls, hq] at h
      obtain ⟨q, hq⟩ := hfirst
      obtain ⟨items, hitems⟩ := run_ok_array c _ q hq
      obtain ⟨p2, k1, k2, k3, _⟩ := runCalls_array (c :: calls) _ items hitems
      rw [h] at k1
      cases k1
      have hs := (k3 (List.cons_ne_nil _ _)).1
      refine ⟨fun _ => by rw [hs, k2], fun hnil => absurd hnil (List.cons_ne_nil _ _), ?_⟩
      rw [k2]
      exact load_saved_array p _ hs
  · intro p0 calls items h
    obtain ⟨p1, k1, _⟩ := runCalls_array calls _ items h
    exact ⟨p1, k1⟩

/-- C5 on a first visit: after one `addToCart` the stored value is the
serialization of the one-entry cart. -/
theorem C5_persisted_after_every_call_witness :
    ∃ p, runCalls [.add "A" "Widget" (.num lit999) (.num (.fin 4))]
        (loadCartFromStorage firstVisit) = .ok p ∧
      p.stored = some (JSON.stringify p.cart) ∧
      p.stored = some (.json (.array
        [⟨"A", "Widget", .num lit999, .num (.fin 4), .num (.fin 1)⟩])) := by
  obtain ⟨p, hp⟩ := C5_persisted_after_every_call.2.2.2 firstVisit
    [.add "A" "Widget" (.num lit999) (.num (.fin 4))] [] (by decide)
  refine ⟨p, hp, (C5_persisted_after_every_call.2.2.1 firstVisit _ p hp).1 (by simp), ?_⟩
  have h : runCalls [.add "A" "Widget" (.num lit999) (.num (.fin 4))]
      (loadCartFromStorage firstVisit) = .ok
        { firstVisit with
          cart := .array [⟨"A", "Widget", .num lit999, .num (.fin 4), .num (.fin 1)⟩]
          stored := some (.json (.array
            [⟨"A", "Widget", .num lit999, .num (.fin 4), .num (.fin 1)⟩]))
          cartCount := some [.number 1]
          alerts := ["Widget added to cart"] } := by decide!
  rw [h] at hp
  cases hp
  rfl

/-! ## C6: the cart invariant -/

/-- C6: every sequence of `addToCart` and `removeFromCart` calls from the empty
cart returns and leaves an array in which no two entries share an id and every
`qty` is a whole number that is at least `1`. -/
theorem C6_cart_invariant (calls : List Call) (p0 : Page) (h0 : p0.cart = .array []) :
    ∃ p items, runCalls calls p0 = .ok p ∧ p.cart = .array items ∧
      (items.map (fun item => item.id)).Nodup ∧
      ∀ item ∈ items, ∃ n : ℕ, 1 ≤ n ∧ item.qty = .num (.fin n) := by
  obtain ⟨p, h1, h2, _⟩ := runCalls_array calls p0 [] h0
  obtain ⟨hnd, hq⟩ := CartOK_stepCalls calls [] CartOK_nil
  refine ⟨p, _, h1, h2, hnd, ?_⟩
  intro item hm
  obtain ⟨n, hn1, _, hn3⟩ := hq item hm
  exact ⟨n, hn1, hn3⟩

/-- C6 on a first visit, for the calls add `"A"`, add `"A"`, add `"B"`,
remove `"A"`. -/
theorem C6_cart_invariant_witness :
    firstVisit.cart = .array [] ∧
    ∃ p items, runCalls [.add "A" "Widget" (.num lit999) (.num (.fin 4)),
        .add "A" "Widget" (.num lit999) (.num (.fin 4)),
        .add "B" "Gadget" (.str "5") (.str "2"), .remove "A"] firstVisit = .ok p ∧
      p.cart = .array items ∧ (items.map (fun item => item.id)).Nodup ∧
      ∀ item ∈ items, ∃ n : ℕ, 1 ≤ n ∧ item.qty = .num (.fin n) :=
  ⟨rfl, C6_cart_invariant _ firstVisit rfl⟩

/-! ## C3: the round trip through storage -/

theorem viaJSON_of_finite (item : LineItem) (hm : FiniteMoney item) (hq : QtyOK item.qty) :
    item.viaJSON = item := by
  obtain ⟨id, name, price, cost, qty⟩ := item
  obtain ⟨⟨q1, h1⟩, ⟨q2, h2⟩⟩ := hm
  obtain ⟨n, _, _, h3⟩ := hq
  simp only at h1 h2 h3
  subst h1 h2 h3
  rfl

theorem map_viaJSON_of_finite (items : List LineItem) (hm : ∀ item ∈ items, FiniteMoney item)
    (hq : ∀ item ∈ items, QtyOK item.qty) : items.map LineItem.viaJSON = items := by
  rw [List.map_congr_left (g := id)]
  · simp
  · intro item hmem
    exact viaJSON_of_finite item (hm item hmem) (hq item hmem)

theorem load_save_array (p : Page) (items : List LineItem) (h : p.cart = .array items)
    (hm : ∀ item ∈ items, FiniteMoney item) (hq : ∀ item ∈ items, QtyOK item.qty) :
    (loadCartFromStorage (saveCart p)).cart = p.cart := by
  simp [loadCartFromStorage, saveCart, h, JSON.stringify, JSON.parse, JSValue.truthy,
    map_viaJSON_of_finite items hm hq]

theorem bumpFirst_money (id : String) (items : List LineItem)
    (h : ∀ item ∈ items, FiniteMoney item) : ∀ item ∈ bumpFirst id items, FiniteMoney item := by
  induction items with
  | nil => intro item hm; simp [bumpFirst] at hm
  | cons a rest ih =>
    intro item hm
    simp only [bumpFirst] at hm
    split_ifs at hm with hc
    · rcases List.mem_cons.mp hm with rfl | hr
      · exact h a (List.mem_cons_self _ _)
      · exact h item (List.mem_cons_of_mem _ hr)
    · rcases List.mem_cons.mp hm with rfl | hr
      · exact h _ (List.mem_cons_self _ _)
      · exact ih (fun i hi => h i (List.mem_cons_of_mem _ hi)) item hr

theorem money_addItem (id name : String) (price cost : Arg) (q1 q2 : ℚ)
    (hp : parseFloat price = .fin q1) (hc : parseFloat cost = .fin q2)
    (items : List LineItem) (h : ∀ item ∈ items, FiniteMoney item) :
    ∀ item ∈ addItem id name price cost items, FiniteMoney item := by
  rcases addItem_cases id name price cost items with ⟨heq, _⟩ | ⟨_, heq⟩
  · rw [heq]
    exact bumpFirst_money id items h
  · rw [heq]
    intro item hm
    rcases List.mem_append.mp hm with h1 | h1
    · exact h item h1
    · simp only [List.mem_singleton] at h1
      subst h1
      exact ⟨⟨q1, by rw [hp]⟩, ⟨q2, by rw [hc]⟩⟩

theorem money_stepCalls (calls : List Call)
    (hvalid : ∀ c ∈ calls, ∃ id name price cost q1 q2,
      c = .add id name price cost ∧ parseFloat price = .fin q1 ∧ parseFloat cost = .fin q2)
    (items : List LineItem) (h : ∀ item ∈ items, FiniteMoney item) :
    ∀ item ∈ stepCalls calls items, FiniteMoney item := by
  induction calls generalizing items with
  | nil => exact h
  | cons c cs ih =>
    obtain ⟨id, name, price, cost, q1, q2, rfl, hp, hc⟩ := hvalid c (List.mem_cons_self _ _)
    exact ih (fun c hc => hvalid c (List.mem_cons_of_mem _ hc)) _
      (money_addItem id name price cost q1 q2 hp hc items h)

/-- C3: after any sequence of `addToCart` calls from the empty cart whose price
and cost parse to finite numbers, `saveCart` followed by `loadCartFromStorage`
leaves the variable `cart` equal to what it was: the same entries in the same
order with the same id, name, price, cost and qty.  The calls return, and since
the last one has saved the cart, a load without a further save gives the cart
too. -/
theorem C3_save_load_round_trip (calls : List Call) (p0 : Page) (h0 : p0.cart = .array [])
    (hvalid : ∀ c ∈ calls, ∃ id name price cost q1 q2,
      c = .add id name price cost ∧ parseFloat price = .fin q1 ∧ parseFloat cost = .fin q2) :
    ∃ p items, runCalls calls p0 = .ok p ∧ p.cart = .array items ∧
      (loadCartFromStorage (saveCart p)).cart = .array items ∧
      (calls ≠ [] → (loadCartFromStorage p).cart = .array items) := by
  obtain ⟨p, h1, h2, h3, _⟩ := runCalls_array calls p0 [] h0
  have hm := money_stepCalls calls hvalid [] (fun _ h => absurd h (List.not_mem_nil _))
  have hq := (CartOK_stepCalls calls [] CartOK_nil).2
  refine ⟨p, _, h1, h2, ?_, ?_⟩
  · rw [load_save_array p _ h2 hm hq, h2]
  · intro hne
    have hs := (h3 hne).1
    simp [loadCartFromStorage, hs, JSON.stringify, JSON.parse, JSValue.truthy,
      map_viaJSON_of_finite _ hm hq]

/-- C3 for the calls add `"A"` (price `9.99`), add `"B"` (price given as the
string `"5"`), add `"A"` again. -/
theorem C3_save_load_round_trip_witness :
    firstVisit.cart = .array [] ∧
    (∀ c ∈ [Call.add "A" "Widget" (.num lit999) (.num (.fin 4)),
        Call.add "B" "Gadget" (.str "5") (.str "2.50"),
        Call.add "A" "Widget" (.num lit999) (.num (.fin 4))],
      ∃ id name price cost q1 q2,
        c = .add id name price cost ∧ parseFloat price = .fin q1 ∧ parseFloat cost = .fin q2) ∧
    ∃ p items, runCalls [Call.add "A" "Widget" (.num lit999) (.num (.fin 4)),
        Call.add "B" "Gadget" (.str "5") (.str "2.50"),
        Call.add "A" "Widget" (.num lit999) (.num (.fin 4))] firstVisit = .ok p ∧
      p.cart = .array items ∧
      (loadCartFromStorage (saveCart p)).cart = .array items ∧
      items = [⟨"A", "Widget", .num lit999, .num (.fin 4), .num (.fin 2)⟩,
               ⟨"B", "Gadget", .num (.fin 5), .num (.fin (5 / 2)), .num (.fin 1)⟩] := by
  have hvalid : ∀ c ∈ [Call.add "A" "Widget" (.num lit999) (.num (.fin 4)),
        Call.add "B" "Gadget" (.str "5") (.str "2.50"),
        Call.add "A" "Widget" (.num lit999) (.num (.fin 4))],
      ∃ id name price cost q1 q2,
        c = .add id name price cost ∧ parseFloat price = .fin q1 ∧ parseFloat cost = .fin q2 := by
    intro c hc
    simp only [List.mem_cons, List.mem_singleton, List.not_mem_nil, or_false] at hc
    rcases hc with rfl | rfl | rfl
    · exact ⟨_, _, _, _, 5623870034678907 / 562949953421312, 4, rfl, by decide!, rfl⟩
    · exact ⟨_, _, _, _, 5, 5 / 2, rfl, by decide!, by decide!⟩
    · exact ⟨_, _, _, _, 5623870034678907 / 562949953421312, 4, rfl, by decide!, rfl⟩
  refine ⟨rfl, hvalid, ?_⟩
  obtain ⟨p, items, h1, h2, h3, _⟩ := C3_save_load_round_trip _ firstVisit rfl hvalid
  refine ⟨p, items, h1, h2, h3, ?_⟩
  have hrun : (runCalls [Call.add "A" "Widget" (.num lit999) (.num (.fin 4)),
        Call.add "B" "Gadget" (.str "5") (.str "2.50"),
        Call.add "A" "Widget" (.num lit999) (.num (.fin 4))] firstVisit).toOption.map
        (fun p => p.cart) =
      some (.array [⟨"A", "Widget", .num lit999, .num (.fin 4), .num (.fin 2)⟩,
               ⟨"B", "Gadget", .num (.fin 5), .num (.fin (5 / 2)), .num (.fin 1)⟩]) := by
    decide!
  rw [h1] at hrun
  simp only [Except.toOption, Option.map_some', Option.some.injEq] at hrun
  rw [h2] at hrun
  exact JSValue.array.inj hrun

/-! ## C8: the badge -/

theorem qtyValue_nonneg (f : Field) (h : QtyOK f) : 0 ≤ qtyValue f := by
  obtain ⟨n, _, _, rfl⟩ := h
  simp [qtyValue]

theorem exactItemCount_nonneg (items : List LineItem) (hq : ∀ item ∈ items, QtyOK item.qty) :
    0 ≤ exactItemCount items := by
  unfold exactItemCount
  apply List.sum_nonneg
  intro x hx
  obtain ⟨item, hm, rfl⟩ := List.mem_map.mp hx
  exact qtyValue_nonneg _ (hq item hm)

theorem exactItemCount_cons (a : LineItem) (rest : List LineItem) :
    exactItemCount (a :: rest) = qtyValue a.qty + exactItemCount rest := by
  simp [exactItemCount]

theorem exactItemCount_append (xs ys : List LineItem) :
    exactItemCount (xs ++ ys) = exactItemCount xs + exactItemCount ys := by
  simp [exactItemCount]

theorem foldl_count_exact (items : List LineItem) (a : ℕ)
    (hq : ∀ item ∈ items, QtyOK item.qty)
    (hle : (a : ℚ) + exactItemCount items ≤ 2 ^ 53) :
    items.foldl (fun sum item => jsAdd sum item.qty.toNumber) (.fin a) =
      .fin ((a : ℚ) + exactItemCount items) := by
  induction items generalizing a with
  | nil => simp [exactItemCount]
  | cons x rest ih =>
    obtain ⟨n, hn1, hn2, hx⟩ := hq x (List.mem_cons_self _ _)
    have hrest : ∀ item ∈ rest, QtyOK item.qty := fun i hi => hq i (List.mem_cons_of_mem _ hi)
    have h0 := exactItemCount_nonneg rest hrest
    rw [exactItemCount_cons, hx] at hle
    simp only [qtyValue] at hle
    have hsum : ((a + n : ℕ) : ℚ) ≤ 2 ^ 53 := by push_cast; linarith
    have hsum' : a + n ≤ 2 ^ 53 := by exact_mod_cast hsum
    have hstep : jsAdd (.fin a) x.qty.toNumber = .fin ((a + n : ℕ) : ℚ) := by
      rw [hx]
      simp only [Field.toNumber, jsAdd]
      rw [← roundDouble_natCast (a + n) hsum']
      push_cast
      rfl
    rw [List.foldl_cons, hstep, ih (a + n) hrest (by push_cast; linarith), exactItemCount_cons, hx]
    simp only [qtyValue]
    push_cast
    ring_nf

theorem totalItems_exact (items : List LineItem) (hq : ∀ item ∈ items, QtyOK item.qty)
    (hle : exactItemCount items ≤ 2 ^ 53) : totalItems items = .fin (exactItemCount items) := by
  have h := foldl_count_exact items 0 hq (by simpa using hle)
  simp only [Nat.cast_zero, zero_add] at h
  exact h

theorem exactItemCount_bumpFirst (id : String) (items : List LineItem)
    (hq : ∀ item ∈ items, QtyOK item.qty) :
    exactItemCount (bumpFirst id items) ≤ exactItemCount items + 1 := by
  induction items with
  | nil => simp [bumpFirst, exactItemCount]
  | cons a rest ih =>
    have hrest : ∀ item ∈ rest, QtyOK item.qty := fun i hi => hq i (List.mem_cons_of_mem _ hi)
    simp only [bumpFirst]
    split_ifs
    · obtain ⟨n, hn1, hn2, ha⟩ := hq a (List.mem_cons_self _ _)
      rw [exactItemCount_cons, exactItemCount_cons, ha]
      simp only [Field.toNumber]
      rcases Nat.lt_or_ge n (2 ^ 53) with hlt | hge
      · rw [jsAdd_one_of_lt n hlt]
        simp only [qtyValue]
        push_cast
        linarith
      · have : n = 2 ^ 53 := le_antisymm hn2 hge
        subst this
        rw [jsAdd_one_top]
        simp only [qtyValue]
        linarith
    · rw [exactItemCount_cons, exactItemCount_cons]
      have := ih hrest
      linarith

theorem exactItemCount_filter (f : LineItem → Bool) (items : List LineItem)
    (hq : ∀ item ∈ items, QtyOK item.qty) :
    exactItemCount (items.filter f) ≤ exactItemCount items := by
  induction items with
  | nil => simp
  | cons a rest ih =>
    have hrest : ∀ item ∈ rest, QtyOK item.qty := fun i hi => hq i (List.mem_cons_of_mem _ hi)
    have ha := qtyValue_nonneg _ (hq a (List.mem_cons_self _ _))
    have := ih hrest
    rw [List.filter_cons]
    split_ifs
    · rw [exactItemCount_cons, exactItemCount_cons]; linarith
    · rw [exactItemCount_cons]; linarith

theorem exactItemCount_step (c : Call) (items : List LineItem)
    (hq : ∀ item ∈ items, QtyOK item.qty) :
    exactItemCount (c.step items) ≤ exactItemCount items + 1 := by
  cases c with
  | add id name price cost =>
    simp only [Call.step]
    rcases addItem_cases id name price cost items with ⟨heq, _⟩ | ⟨_, heq⟩
    · rw [heq]; exact exactItemCount_bumpFirst id items hq
    · rw [heq, exactItemCount_append]
      simp [exactItemCount, qtyValue]
  | remove id =>
    simp only [Call.step]
    have := exactItemCount_filter (fun item => decide (item.id ≠ id)) items hq
    linarith

theorem exactItemCount_stepCalls (calls : List Call) (items : List LineItem)
    (h : CartOK items) :
    exactItemCount (stepCalls calls items) ≤ exactItemCount items + calls.length := by
  induction calls generalizing items with
  | nil => simp [stepCalls]
  | cons c cs ih =>
    have h1 := exactItemCount_step c items h.2
    have h2 := ih (c.step items) (CartOK_step c items h)
    simp only [stepCalls, List.foldl_cons, List.length_cons] at h2 ⊢
    push_cast
    linarith

/-- C8: after every sequence of `addToCart` and `removeFromCart` calls from the
empty cart, on a page that has the badge, `updateCartCount` writes the sum of
`qty` over the entries of the resulting cart, and that is what the badge already
shows once a call has been made.  The sum is the one line 31 computes, in
double arithmetic, and for up to `2 ^ 53` calls it is the exact sum. -/
theorem C8_badge_shows_item_count (calls : List Call) (p0 : Page) (t0 : Text)
    (h0 : p0.cart = .array []) (hbadge : p0.cartCount = some t0) :
    ∃ p items, runCalls calls p0 = .ok p ∧ p.cart = .array items ∧
      (∃ p1, updateCartCount p = .ok p1 ∧
        p1.cartCount = some [numberText (totalItems items)]) ∧
      (calls ≠ [] → p.cartCount = some [numberText (totalItems items)]) ∧
      (calls.length ≤ 2 ^ 53 → totalItems items = .fin (exactItemCount items)) ∧
      (items = [] → totalItems items = .fin 0) := by
  obtain ⟨p, h1, h2, h3, h4⟩ := runCalls_array calls p0 [] h0
  refine ⟨p, _, h1, h2, ?_, ?_, ?_, ?_⟩
  · refine ⟨_, updateCartCount_array p _ h2, ?_⟩
    rw [hbadge] at h4
    cases hc : p.cartCount with
    | none => simp [hc] at h4
    | some t => simp
  · intro hne
    rw [(h3 hne).2, hbadge]
    rfl
  · intro hlen
    have hok := CartOK_stepCalls calls [] CartOK_nil
    have hb := exactItemCount_stepCalls calls [] CartOK_nil
    apply totalItems_exact _ hok.2
    have hlen' : (calls.length : ℚ) ≤ 2 ^ 53 := by exact_mod_cast hlen
    simp only [exactItemCount, List.map_nil, List.sum_nil, zero_add] at hb
    unfold exactItemCount
    linarith
  · intro hnil
    rw [hnil]
    rfl

/-- C8, the scenario of the specification: `add("A", ...)` then `remove("A")`
leaves the empty cart and the badge shows `0`. -/
theorem C8_badge_shows_item_count_witness :
    firstVisit.cart = .array [] ∧ firstVisit.cartCount = some [] ∧
    (∃ p items, runCalls [.add "A" "Widget" (.num lit999) (.num (.fin 4)), .remove "A"]
        firstVisit = .ok p ∧ p.cart = .array items ∧
      (∃ p1, updateCartCount p = .ok p1 ∧
        p1.cartCount = some [numberText (totalItems items)]) ∧
      ([Call.add "A" "Widget" (.num lit999) (.num (.fin 4)), Call.remove "A"] ≠ [] →
        p.cartCount = some [numberText (totalItems items)]) ∧
      ([Call.add "A" "Widget" (.num lit999) (.num (.fin 4)), Call.remove "A"].length ≤ 2 ^ 53 →
        totalItems items = .fin (exactItemCount items)) ∧
      (items = [] → totalItems items = .fin 0)) ∧
    (runCalls [.add "A" "Widget" (.num lit999) (.num (.fin 4)), .remove "A"]
        firstVisit).toOption.map (fun p => (p.cart, p.cartCount)) =
      some (.array [], some [.number 0]) :=
  ⟨rfl, rfl, C8_badge_shows_item_count _ firstVisit [] rfl rfl, by decide!⟩

/-! ## C7: the grand total -/

/-- C9: on a cart that is an array, each of `updateCartCount`,
`displayCartItems` and `displayCheckoutItems` returns, leaves `cart` and
everything but its own elements as they were, writes content given by the cart
alone (for the two views one row per entry and the total), gives the same page
again when called a second time, and changes nothing when one of its elements
is absent. -/
theorem C9_rendering_idempotent (p : Page) (items : List LineItem)
    (hcart : p.cart = .array items) :
    (∃ p1, updateCartCount p = .ok p1 ∧ updateCartCount p1 = .ok p1 ∧ p1.cart = p.cart ∧
      (∀ t, p.cartCount = some t →
        p1 = { p with cartCount := some [numberText (totalItems items)] }) ∧
      (p.cartCount = none → p1 = p)) ∧
    (∃ p1, displayCartItems p = .ok p1 ∧ displayCartItems p1 = .ok p1 ∧ p1.cart = p.cart ∧
      (∀ rows t, p.cartItems = some rows → p.cartTotal = some t →
        p1 = { p with cartItems := some (items.map cartRow)
                      cartTotal := some [.lit "$", toFixed2 (grandTotal items)] } ∧
        (items.map cartRow).length = items.length) ∧
      (p.cartItems = none ∨ p.cartTotal = none → p1 = p)) ∧
    (∃ p1, displayCheckoutItems p = .ok p1 ∧ displayCheckoutItems p1 = .ok p1 ∧
      p1.cart = p.cart ∧
      (∀ rows t, p.checkoutItems = some rows → p.checkoutTotal = some t →
        p1 = { p with checkoutItems := some (items.map checkoutRow)
                      checkoutTotal := some [.lit "$", toFixed2 (grandTotal items)] } ∧
        (items.map checkoutRow).length = items.length) ∧
      (p.checkoutItems = none ∨ p.checkoutTotal = none → p1 = p)) := by
  obtain ⟨cart, stored, cc, ci, ct, ki, kt, al⟩ := p
  simp only at hcart
  subst hcart
  refine ⟨?_, ?_, ?_⟩
  · cases cc <;> simp [updateCartCount]
  · cases ci <;> cases ct <;> simp [displayCartItems]
  · cases ki <;> cases kt <;> simp [displayCheckoutItems]

/-- C9 on a page whose elements hold prior content: a second call of each
function returns the page the first one left, and the cart view holds one row,
built from the entry alone. -/
theorem C9_rendering_idempotent_witness :
    oneEntry.cart = .array [⟨"A", "Widget", .num lit999, .num (.fin 4), .num (.fin 2)⟩] ∧
    (∃ p1, updateCartCount oneEntry = .ok p1 ∧ updateCartCount p1 = .ok p1 ∧
      p1.cartCount = some [.number 2]) ∧
    (∃ p1, displayCartItems oneEntry = .ok p1 ∧ displayCartItems p1 = .ok p1 ∧
      p1.cartItems = some [cartRow ⟨"A", "Widget", .num lit999, .num (.fin 4), .num (.fin 2)⟩]) ∧
    (∃ p1, displayCheckoutItems oneEntry = .ok p1 ∧ displayCheckoutItems p1 = .ok p1 ∧
      p1.checkoutItems =
        some [checkoutRow ⟨"A", "Widget", .num lit999, .num (.fin 4), .num (.fin 2)⟩]) := by
  obtain ⟨⟨p1, a1, a2, _, a4, _⟩, ⟨p2, b1, b2, _, b4, _⟩, ⟨p3, c1, c2, _, c4, _⟩⟩ :=
    C9_rendering_idempotent oneEntry _ rfl
  refine ⟨rfl, ⟨p1, a1, a2, ?_⟩, ⟨p2, b1, b2, ?_⟩, ⟨p3, c1, c2, ?_⟩⟩
  · rw [a4 _ rfl]
    have : totalItems [⟨"A", "Widget", .num lit999, .num (.fin 4), .num (.fin 2)⟩] = .fin 2 := by
      decide!
    simp only [this, numberText]
  · rw [(b4 _ _ rfl rfl).1]
    rfl
  · rw [(c4 _ _ rfl rfl).1]
    rfl

/-! ## C10: the postcondition of addToCart -/

end GardenBait
